import Mathlib

/-!
Verification of the Azaamdolarnam repository: a "machine" game app
(src/App.tsx) and a bot registration app (src/unnamed/part_001), sharing
an MD5-based credential generator (src/lib/crypto.ts, modelled from the
spec where the file is absent).
-/

namespace Azaam

/-! ## Machine game (src/App.tsx) -/

/-- Game state record, from src/unnamed/part_000 (`GameState`): a per-user
pointer into the account list plus a level counter.  `updated_at` is set
only on upsert and carries no logic, so it is omitted. -/
structure GameState where
  user_id : String
  current_index : Nat
  current_level : Nat
deriving DecidableEq, Repr

/-- `handleNext` from src/App.tsx lines 198-220: on empty account list it
returns immediately (no state change, no upsert); otherwise it advances
`current_index`, wrapping to 0 and incrementing `current_level` when the
incremented index reaches the list length, and issues an upsert.  The
returned `Bool` records whether the persistence upsert was issued. -/
def handleNext (accounts : List α) (gs : GameState) : GameState × Bool :=
  if accounts.length = 0 then (gs, false)
  else if gs.current_index + 1 ≥ accounts.length then
    ({ gs with current_index := 0, current_level := gs.current_level + 1 }, true)
  else
    ({ gs with current_index := gs.current_index + 1 }, true)

/-- `updateGameState` from src/App.tsx lines 222-229: overwrite the index
and level (both call sites in the code pass `0, 1`). -/
def updateGameState (idx lvl : Nat) (gs : GameState) : GameState :=
  { gs with current_index := idx, current_level := lvl }

/-- `handleReset` from src/App.tsx lines 237-247 (confirmed, successful
delete): delete all accounts, then `updateGameState 0 1`, then clear the
local account list. -/
def handleReset (gs : GameState) : GameState × List α :=
  (updateGameState 0 1 gs, ([] : List α))

/-- The post-insert tail of `handleGenerate`, src/App.tsx lines 187-193
(successful insert returning `data`): append the inserted rows and, when
the captured account list was empty, reset the game state via
`updateGameState 0 1`. -/
def handleGenerate (data accounts : List α) (gs : GameState) : List α × GameState :=
  let accounts1 := accounts ++ data
  if accounts.length = 0 then (accounts1, updateGameState 0 1 gs)
  else (accounts1, gs)

/-- The spec's invariant: `0 <= current_index < len(accounts)` whenever
accounts is non-empty, and `current_level >= 1` (indices are `Nat`, so
the lower bounds are inherent). -/
def GameInv (accounts : List α) (gs : GameState) : Prop :=
  (accounts ≠ [] → gs.current_index < accounts.length) ∧ 1 ≤ gs.current_level

instance (accounts : List α) (gs : GameState) : Decidable (GameInv accounts gs) :=
  decidable_of_iff
    ((accounts.length = 0 ∨ gs.current_index < accounts.length) ∧ 1 ≤ gs.current_level)
    (by
      unfold GameInv
      constructor
      · rintro ⟨h1 | h1, h2⟩
        · exact ⟨fun hne => absurd (List.length_eq_zero.mp h1) hne, h2⟩
        · exact ⟨fun _ => h1, h2⟩
      · rintro ⟨h1, h2⟩
        refine ⟨?_, h2⟩
        by_cases he : accounts = []
        · exact Or.inl (by simp [he])
        · exact Or.inr (h1 he))

/-! ## MD5 digest (spec-modelled; src/lib/crypto.ts is absent) -/

/-- Modelled from the spec: src/lib/crypto.ts (the `md5` digest imported by
both apps) is not present under src/.  The spec specifies it as the standard
128-bit message-digest algorithm (RFC 1321) rendered as a 32-character
lowercase hexadecimal string; the definitions below implement that
algorithm over UTF-8 bytes represented as `Nat`s reduced mod 2^32. -/
def M32 : Nat := 4294967296

def mask32 : Nat := 4294967295

def hexDigitChars : List Char := "0123456789abcdef".data

def hexChar (n : Nat) : Char := hexDigitChars.getD n '0'

def byteToHex (b : Nat) : List Char := [hexChar (b / 16), hexChar (b % 16)]

def bytesToHex : List Nat → List Char
  | [] => []
  | b :: bs => byteToHex b ++ bytesToHex bs

def utf8Char (n : Nat) : List Nat :=
  if n < 128 then [n]
  else if n < 2048 then [192 + n / 64, 128 + n % 64]
  else if n < 65536 then [224 + n / 4096, 128 + (n / 64) % 64, 128 + n % 64]
  else [240 + n / 262144, 128 + (n / 4096) % 64, 128 + (n / 64) % 64, 128 + n % 64]

def utf8Encode (s : String) : List Nat :=
  (s.data.map (fun c => utf8Char c.toNat)).flatten

def rotl32 (x s : Nat) : Nat := ((x <<< s) ||| (x >>> (32 - s))) % M32

def mF (b c d : Nat) : Nat := (b &&& c) ||| ((b ^^^ mask32) &&& d)

def mG (b c d : Nat) : Nat := (b &&& d) ||| (c &&& (d ^^^ mask32))

def mH (b c d : Nat) : Nat := b ^^^ c ^^^ d

def mI (b c d : Nat) : Nat := c ^^^ (b ||| (d ^^^ mask32))

def md5T : List Nat :=
  [0xd76aa478, 0xe8c7b756, 0x242070db, 0xc1bdceee,
   0xf57c0faf, 0x4787c62a, 0xa8304613, 0xfd469501,
   0x698098d8, 0x8b44f7af, 0xffff5bb1, 0x895cd7be,
   0x6b901122, 0xfd987193, 0xa679438e, 0x49b40821,
   0xf61e2562, 0xc040b340, 0x265e5a51, 0xe9b6c7aa,
   0xd62f105d, 0x02441453, 0xd8a1e681, 0xe7d3fbc8,
   0x21e1cde6, 0xc33707d6, 0xf4d50d87, 0x455a14ed,
   0xa9e3e905, 0xfcefa3f8, 0x676f02d9, 0x8d2a4c8a,
   0xfffa3942, 0x8771f681, 0x6d9d6122, 0xfde5380c,
   0xa4beea44, 0x4bdecfa9, 0xf6bb4b60, 0xbebfbc70,
   0x289b7ec6, 0xeaa127fa, 0xd4ef3085, 0x04881d05,
   0xd9d4d039, 0xe6db99e5, 0x1fa27cf8, 0xc4ac5665,
   0xf4292244, 0x432aff97, 0xab9423a7, 0xfc93a039,
   0x655b59c3, 0x8f0ccc92, 0xffeff47d, 0x85845dd1,
   0x6fa87e4f, 0xfe2ce6e0, 0xa3014314, 0x4e0811a1,
   0xf7537e82, 0xbd3af235, 0x2ad7d2bb, 0xeb86d391]

def md5S : List Nat :=
  [7, 12, 17, 22, 7, 12, 17, 22, 7, 12, 17, 22, 7, 12, 17, 22,
   5, 9, 14, 20, 5, 9, 14, 20, 5, 9, 14, 20, 5, 9, 14, 20,
   4, 11, 16, 23, 4, 11, 16, 23, 4, 11, 16, 23, 4, 11, 16, 23,
   6, 10, 15, 21, 6, 10, 15, 21, 6, 10, 15, 21, 6, 10, 15, 21]

def md5K (i : Nat) : Nat :=
  if i < 16 then i
  else if i < 32 then (5 * i + 1) % 16
  else if i < 48 then (3 * i + 5) % 16
  else (7 * i) % 16

def md5Round (x : List Nat) (st : Nat × Nat × Nat × Nat) (i : Nat) : Nat × Nat × Nat × Nat :=
  let (a, b, c, d) := st
  let f := if i < 16 then mF b c d
           else if i < 32 then mG b c d
           else if i < 48 then mH b c d
           else mI b c d
  let tmp := (a + f + x.getD (md5K i) 0 + md5T.getD i 0) % M32
  let b1 := (b + rotl32 tmp (md5S.getD i 0)) % M32
  (d, b1, b, c)

def md5Block (st : Nat × Nat × Nat × Nat) (x : List Nat) : Nat × Nat × Nat × Nat :=
  let r := (List.range 64).foldl (md5Round x) st
  ((st.1 + r.1) % M32, (st.2.1 + r.2.1) % M32, (st.2.2.1 + r.2.2.1) % M32,
    (st.2.2.2 + r.2.2.2) % M32)

def le8 (n : Nat) : List Nat :=
  [n % 256, n / 256 % 256, n / 65536 % 256, n / 16777216 % 256,
   n / 4294967296 % 256, n / 1099511627776 % 256, n / 281474976710656 % 256,
   n / 72057594037927936 % 256]

def le4 (n : Nat) : List Nat :=
  [n % 256, n / 256 % 256, n / 65536 % 256, n / 16777216 % 256]

def padBytes (msg : List Nat) : List Nat :=
  msg ++ [128] ++ List.replicate ((119 - msg.length % 64) % 64) 0
    ++ le8 ((msg.length * 8) % 18446744073709551616)

def toWords : List Nat → List Nat
  | b0 :: b1 :: b2 :: b3 :: rest =>
      (b0 + 256 * b1 + 65536 * b2 + 16777216 * b3) :: toWords rest
  | _ => []

def wordBlocksAux : Nat → List Nat → List (List Nat)
  | 0, _ => []
  | _, [] => []
  | fuel + 1, l => l.take 16 :: wordBlocksAux fuel (l.drop 16)

def wordBlocks (l : List Nat) : List (List Nat) := wordBlocksAux l.length l

def md5Bytes (msg : List Nat) : List Nat :=
  let r := (wordBlocks (toWords (padBytes msg))).foldl md5Block
    (0x67452301, 0xefcdab89, 0x98badcfe, 0x10325476)
  le4 r.1 ++ le4 r.2.1 ++ le4 r.2.2.1 ++ le4 r.2.2.2

def digest_md5 (s : String) : String := String.mk (bytesToHex (md5Bytes (utf8Encode s)))

/-- The `md5` name used by both apps (src/lib/crypto.ts export). -/
def md5 : String → String := digest_md5

/-! ## Bot app (src/unnamed/part_001) -/

/-- Account status union from src/types.ts (`'PENDING' | 'SUCCESS' | 'ERROR'`). -/
inductive Status where
  | PENDING
  | SUCCESS
  | ERROR
deriving DecidableEq, Repr

/-- `GeneratedAccount` from src/types.ts. -/
structure Account where
  id : String
  email : String
  passwordPlain : String
  passwordMd5 : String
  status : Status
  createdAt : String
  errorMessage : Option String := none
deriving DecidableEq, Repr

/-- Result of `response.json()` inside `registerAccount`: either the body
fails to parse, or it parses with an optional numeric `code` field and an
optional `msg` field. -/
inductive BodyParse where
  | parseFailed (msg : String)
  | parsed (code : Option Int) (msg : Option String)
deriving DecidableEq, Repr

/-- Outcome of the external `fetch` call inside `registerAccount`: either
the request itself rejects (network / CORS error), or a response arrives
with an `ok` flag, an HTTP status, and a body. -/
inductive FetchOutcome where
  | netError (msg : String)
  | response (ok : Bool) (status : Nat) (body : BodyParse)
deriving DecidableEq, Repr

/-- `registerAccount` from src/unnamed/part_001 lines 97-138, as a function
of the fetch outcome.  A fetch rejection propagates; a non-ok response
throws `HTTP <status>`; a body that fails to parse as JSON throws; the
`data.code !== 200 && data.code !== 0` branch is present in the source but
its `throw` is commented out, so a parsed body always returns normally. -/
def registerAccount (o : FetchOutcome) : Except String Unit :=
  match o with
  | .netError m => .error m
  | .response ok status body =>
    if ok = false then .error ("HTTP " ++ toString status)
    else
      match body with
      | .parseFailed m => .error m
      | .parsed _code _msg => .ok ()

/-- Per-iteration environment of the `startGeneration` loop: the value of
the cooperative stop flag as observed at the top of the iteration, the
fetch outcome of this iteration's registration request, and the values
produced by the external generators (`crypto.randomUUID`,
`generateRandomEmail`, `generateRandomPassword`, `new Date`). -/
structure IterEnv where
  stop : Bool
  fetch : FetchOutcome
  id : String
  email : String
  password : String
  createdAt : String

/-- The record built at the top of each loop iteration,
src/unnamed/part_001 lines 56-67: fresh credentials, the MD5 of the
plaintext password, and status `PENDING`. -/
def mkAccount (e : IterEnv) : Account :=
  { id := e.id, email := e.email, passwordPlain := e.password,
    passwordMd5 := md5 e.password, status := .PENDING,
    createdAt := e.createdAt, errorMessage := none }

/-- The status update after `registerAccount` resolves,
src/unnamed/part_001 lines 72-80: map over the list, replacing the record
whose id matches with a copy whose status is `SUCCESS` on success, or
`ERROR` with the failure message on error. -/
def markResult (nid : String) (res : Except String Unit) (accs : List Account) : List Account :=
  accs.map fun acc =>
    if acc.id = nid then
      match res with
      | .ok _ => { acc with status := .SUCCESS }
      | .error m => { acc with status := .ERROR, errorMessage := some m }
    else acc

/-- The final state of the record created in one iteration: `PENDING`
resolved by the outcome of its single registration request. -/
def finishedRecord (e : IterEnv) : Account :=
  match registerAccount e.fetch with
  | .ok _ => { mkAccount e with status := .SUCCESS }
  | .error m => { mkAccount e with status := .ERROR, errorMessage := some m }

/-- The `for` loop of `startGeneration`, src/unnamed/part_001 lines 53-87:
at the top of each iteration the stop flag is checked (and nowhere else);
otherwise a `PENDING` record is prepended, its one registration request is
attempted, and its status updated.  Returns the final account list and the
trace of iteration indices that issued a registration request. -/
def genLoop (env : Nat → IterEnv) : Nat → Nat → List Account → List Account × List Nat
  | 0, _, accs => (accs, [])
  | rem + 1, i, accs =>
    if (env i).stop then (accs, [])
    else
      let na := mkAccount (env i)
      let accs2 := markResult na.id (registerAccount (env i).fetch) (na :: accs)
      let r := genLoop env rem (i + 1) accs2
      (r.1, i :: r.2)

/-- `startGeneration` from src/unnamed/part_001 lines 46-90: run the loop
from iteration 0 up to the target count. -/
def startGeneration (env : Nat → IterEnv) (target : Nat) (accs : List Account) :
    List Account × List Nat :=
  genLoop env target 0 accs

/-- Number of iterations the loop executes: it stops early at the first
iteration whose stop flag is observed set. -/
def execCount (env : Nat → IterEnv) : Nat → Nat → Nat
  | 0, _ => 0
  | rem + 1, i => if (env i).stop then 0 else execCount env rem (i + 1) + 1

/-! ## JSON persistence (src/unnamed/part_001 lines 24-39)

The bot saves `JSON.stringify(accounts)` under the localStorage key
`z_autoreg_accounts` after every change, and on mount restores the list
with `JSON.parse`.  `JSON.stringify` / `JSON.parse` are platform
collaborators; they are modelled below on the JSON fragment the app
persists: arrays of flat objects whose values are strings (every
`GeneratedAccount` field is a string; `status` is a string union and the
optional `errorMessage` is omitted by `JSON.stringify` when undefined).
Strings are escaped exactly as JSON requires: `"` and `\` get a backslash
escape and control characters become `\u00XX`. -/

def statusToString : Status → String
  | .PENDING => "PENDING"
  | .SUCCESS => "SUCCESS"
  | .ERROR => "ERROR"

def statusOfString (s : String) : Option Status :=
  if s = "PENDING" then some .PENDING
  else if s = "SUCCESS" then some .SUCCESS
  else if s = "ERROR" then some .ERROR
  else none

/-- The field/value pairs `JSON.stringify` emits for one account, in the
object-literal insertion order of src/unnamed/part_001 lines 60-67; an
undefined `errorMessage` is omitted. -/
def accountPairs (a : Account) : List (String × String) :=
  [("id", a.id), ("email", a.email), ("passwordPlain", a.passwordPlain),
   ("passwordMd5", a.passwordMd5), ("status", statusToString a.status),
   ("createdAt", a.createdAt)] ++
  (match a.errorMessage with
   | none => []
   | some m => [("errorMessage", m)])

def getField : List (String × String) → String → Option String
  | [], _ => none
  | (k, v) :: t, key => if k = key then some v else getField t key

/-- Reading an account back out of a parsed JSON object (property access
on the object `JSON.parse` returns). -/
def accountOfPairs (fs : List (String × String)) : Option Account :=
  match getField fs "id", getField fs "email", getField fs "passwordPlain",
      getField fs "passwordMd5", getField fs "status", getField fs "createdAt" with
  | some i, some em, some pp, some pm, some st, some ca =>
    match statusOfString st with
    | some s =>
      some { id := i, email := em, passwordPlain := pp, passwordMd5 := pm,
             status := s, createdAt := ca, errorMessage := getField fs "errorMessage" }
    | none => none
  | _, _, _, _, _, _ => none

def decodeAccounts : List (List (String × String)) → Option (List Account)
  | [] => some []
  | o :: t =>
    match accountOfPairs o, decodeAccounts t with
    | some a, some l => some (a :: l)
    | _, _ => none

/-- JSON string escaping: quote and backslash get a backslash escape,
control characters become `\u00XX`, all other characters pass through. -/
def escapeChar (c : Char) : List Char :=
  if c = '"' then ['\\', '"']
  else if c = '\\' then ['\\', '\\']
  else if c.toNat < 32 then
    ['\\', 'u', '0', '0', hexChar (c.toNat / 16), hexChar (c.toNat % 16)]
  else [c]

def escapeList : List Char → List Char
  | [] => []
  | c :: t => escapeChar c ++ escapeList t

def quoteString (s : String) : List Char := '"' :: (escapeList s.data ++ ['"'])

def joinComma : List (List Char) → List Char
  | [] => []
  | [x] => x
  | x :: t => x ++ ',' :: joinComma t

def pairChars (p : String × String) : List Char :=
  quoteString p.1 ++ ':' :: quoteString p.2

def fieldsChars (fs : List (String × String)) : List Char :=
  joinComma (fs.map pairChars)

def objChars (fs : List (String × String)) : List Char :=
  '{' :: (fieldsChars fs ++ ['}'])

def arrChars (os : List (List (String × String))) : List Char :=
  '[' :: (joinComma (os.map objChars) ++ [']'])

/-- `JSON.stringify` applied to the accounts list. -/
def stringifyAccounts (l : List Account) : String :=
  String.mk (arrChars (l.map accountPairs))

def hexVal (c : Char) : Option Nat :=
  if c = '0' then some 0 else if c = '1' then some 1
  else if c = '2' then some 2 else if c = '3' then some 3
  else if c = '4' then some 4 else if c = '5' then some 5
  else if c = '6' then some 6 else if c = '7' then some 7
  else if c = '8' then some 8 else if c = '9' then some 9
  else if c = 'a' then some 10 else if c = 'b' then some 11
  else if c = 'c' then some 12 else if c = 'd' then some 13
  else if c = 'e' then some 14 else if c = 'f' then some 15
  else none

/-- Decode four JSON hex digits into a code point. -/
def decodeHex4 (d1 d2 d3 d4 : Char) : Option Nat :=
  (hexVal d1).bind fun v1 => (hexVal d2).bind fun v2 =>
    (hexVal d3).bind fun v3 => (hexVal d4).map fun v4 =>
      ((v1 * 16 + v2) * 16 + v3) * 16 + v4

/-- JSON string-body parser (after the opening quote): consumes characters
up to the closing quote, reversing the escapes `escapeChar` produces.
`fuel` is a recursion bound; any fuel at least the input length works. -/
def parseStrAux : Nat → List Char → Option (List Char × List Char)
  | 0, _ => none
  | _ + 1, [] => none
  | fuel + 1, c :: rest =>
    if c = '"' then some ([], rest)
    else if c = '\\' then
      match rest with
      | [] => none
      | e :: rest2 =>
        if e = '"' then (parseStrAux fuel rest2).map (fun p => ('"' :: p.1, p.2))
        else if e = '\\' then (parseStrAux fuel rest2).map (fun p => ('\\' :: p.1, p.2))
        else if e = 'u' then
          match rest2 with
          | h1 :: h2 :: h3 :: h4 :: rest3 =>
            (decodeHex4 h1 h2 h3 h4).bind fun n =>
              (parseStrAux fuel rest3).map (fun p => (Char.ofNat n :: p.1, p.2))
          | _ => none
        else none
    else (parseStrAux fuel rest).map (fun p => (c :: p.1, p.2))

def parseQuoted (fuel : Nat) (l : List Char) : Option (List Char × List Char) :=
  match l with
  | [] => none
  | c :: rest => if c = '"' then parseStrAux fuel rest else none

def parsePair (fuel : Nat) (l : List Char) : Option ((String × String) × List Char) :=
  (parseQuoted fuel l).bind fun kr =>
    match kr.2 with
    | [] => none
    | c :: rest2 =>
      if c = ':' then
        (parseQuoted fuel rest2).map fun vr => ((String.mk kr.1, String.mk vr.1), vr.2)
      else none

/-- Object-field list parser (after the opening brace). -/
def parseFieldsAux : Nat → List Char → Option (List (String × String) × List Char)
  | 0, _ => none
  | _ + 1, [] => none
  | fuel + 1, c :: rest =>
    if c = '}' then some ([], rest)
    else
      (parsePair (fuel + 1) (c :: rest)).bind fun pr =>
        match pr.2 with
        | [] => none
        | c2 :: rest3 =>
          if c2 = ',' then
            (parseFieldsAux fuel rest3).map fun qr => (pr.1 :: qr.1, qr.2)
          else if c2 = '}' then some ([pr.1], rest3)
          else none

def parseObj (fuel : Nat) (l : List Char) : Option (List (String × String) × List Char) :=
  match l with
  | [] => none
  | c :: rest => if c = '{' then parseFieldsAux fuel rest else none

/-- Array-element list parser (after the opening bracket). -/
def parseElemsAux : Nat → List Char → Option (List (List (String × String)) × List Char)
  | 0, _ => none
  | _ + 1, [] => none
  | fuel + 1, c :: rest =>
    if c = ']' then some ([], rest)
    else
      (parseObj (fuel + 1) (c :: rest)).bind fun pr =>
        match pr.2 with
        | [] => none
        | c2 :: rest3 =>
          if c2 = ',' then
            (parseElemsAux fuel rest3).map fun qr => (pr.1 :: qr.1, qr.2)
          else if c2 = ']' then some ([pr.1], rest3)
          else none

def parseArr (fuel : Nat) (l : List Char) : Option (List (List (String × String)) × List Char) :=
  match l with
  | [] => none
  | c :: rest => if c = '[' then parseElemsAux fuel rest else none

/-- `JSON.parse` applied to a persisted accounts string, followed by using
the result as the accounts list; `none` models a parse exception. -/
def parseAccounts (s : String) : Option (List Account) :=
  match parseArr (s.length + 1) s.data with
  | some (os, []) => decodeAccounts os
  | _ => none

/-- The save effect, src/unnamed/part_001 lines 37-39: store the
serialized list under the key `z_autoreg_accounts`. -/
def saveAccounts (store : String → Option String) (l : List Account) :
    String → Option String :=
  fun k => if k = "z_autoreg_accounts" then some (stringifyAccounts l) else store k

/-- The load effect, src/unnamed/part_001 lines 25-34: read the key; a
missing key or a parse failure leaves the initial empty list. -/
def loadAccounts (store : String → Option String) : List Account :=
  match store "z_autoreg_accounts" with
  | none => []
  | some s =>
    match parseAccounts s with
    | some l => l
    | none => []


end Azaam

namespace Azaam

/-! ## Claims about the machine game -/

/-- C1: for a non-empty account list of length n and any in-range state,
handleNext advances to (index + 1, level) when index + 1 < n, and to
(0, level + 1) when index + 1 >= n; the level changes in exactly the
wrap case. -/
theorem c1_handleNext_advances {α : Type} (accounts : List α) (gs : GameState)
    (hne : accounts ≠ []) (hidx : gs.current_index < accounts.length) :
    (gs.current_index + 1 < accounts.length →
        (handleNext accounts gs).1 = { gs with current_index := gs.current_index + 1 }) ∧
    (accounts.length ≤ gs.current_index + 1 →
        (handleNext accounts gs).1 =
          { gs with current_index := 0, current_level := gs.current_level + 1 }) ∧
    ((handleNext accounts gs).1.current_level ≠ gs.current_level ↔
        accounts.length ≤ gs.current_index + 1) :=
  by
  have hlen : accounts.length ≠ 0 := by
    intro h0
    exact hne (List.length_eq_zero.mp h0)
  unfold handleNext
  simp only [hlen, if_false, ge_iff_le]
  refine ⟨?_, ?_, ?_⟩
  · intro hlt
    have hn : ¬ accounts.length ≤ gs.current_index + 1 := by omega
    simp [hn]
  · intro hge
    simp [hge]
  · by_cases hge : accounts.length ≤ gs.current_index + 1
    · simp [hge]
    · simp [hge]

/-- Witness for C1 at a concrete input. -/
theorem c1_witness :
    (([0, 1] : List Nat) ≠ [] ∧
      (GameState.mk "u" 1 3).current_index < ([0, 1] : List Nat).length) ∧
    (handleNext ([0, 1] : List Nat) (GameState.mk "u" 1 3)).1 = GameState.mk "u" 0 4 :=
  ⟨⟨by decide, by decide⟩, by
    have h := c1_handleNext_advances ([0, 1] : List Nat) (GameState.mk "u" 1 3)
      (by decide) (by decide)
    exact h.2.1 (by decide)⟩

/-- C2: each state-updating operation of the app (handleNext,
updateGameState at its call-site arguments 0 1, handleReset, and the
post-generation reset inside handleGenerate) preserves the invariant,
assuming it held before. -/
theorem c2_invariant_preserved {α : Type} (accounts data : List α) (gs : GameState)
    (hInv : GameInv accounts gs) :
    GameInv accounts (handleNext accounts gs).1 ∧
    GameInv accounts (updateGameState 0 1 gs) ∧
    GameInv (handleReset (α := α) gs).2 (handleReset (α := α) gs).1 ∧
    GameInv (handleGenerate data accounts gs).1 (handleGenerate data accounts gs).2 :=
  by
  obtain ⟨hIdx, hLvl⟩ := hInv
  refine ⟨?_, ?_, ?_, ?_⟩
  · unfold handleNext
    by_cases h0 : accounts.length = 0
    · simp only [h0, if_true]
      exact ⟨hIdx, hLvl⟩
    · have hpos : 0 < accounts.length := Nat.pos_of_ne_zero h0
      simp only [h0, if_false, ge_iff_le]
      by_cases hge : accounts.length ≤ gs.current_index + 1
      · simp only [hge, if_true]
        exact ⟨fun _ => hpos, Nat.le_succ_of_le hLvl⟩
      · simp only [hge, if_false]
        exact ⟨fun _ => Nat.not_le.mp hge, hLvl⟩
  · exact ⟨fun hne => Nat.pos_of_ne_zero (fun h => hne (List.length_eq_zero.mp h)),
      Nat.le_refl 1⟩
  · exact ⟨fun hne => absurd rfl hne, Nat.le_refl 1⟩
  · unfold handleGenerate
    by_cases h0 : accounts.length = 0
    · simp only [h0, if_true]
      refine ⟨fun hne => ?_, Nat.le_refl 1⟩
      exact Nat.pos_of_ne_zero (fun h => hne (List.length_eq_zero.mp h))
    · have hne : accounts ≠ [] := fun h => h0 (by simp [h])
      simp only [h0, if_false]
      refine ⟨fun _ => ?_, hLvl⟩
      have h1 := hIdx hne
      have h2 : accounts.length ≤ (accounts ++ data).length := by
        simp [List.length_append]
      omega

/-- Witness for C2 at a concrete input. -/
theorem c2_witness :
    GameInv ([7] : List Nat) (GameState.mk "u" 0 1) ∧
    GameInv ([7] : List Nat) (handleNext ([7] : List Nat) (GameState.mk "u" 0 1)).1 :=
  ⟨by decide, (c2_invariant_preserved ([7] : List Nat) ([] : List Nat)
      (GameState.mk "u" 0 1) (by decide)).1⟩

/-- C8: on an empty account list, handleNext leaves the state unchanged and
issues no persistence upsert. -/
theorem c8_handleNext_empty {α : Type} (gs : GameState) :
    handleNext ([] : List α) gs = (gs, false) :=
  by
  unfold handleNext
  simp

/-! ## Helper lemmas about the bot loop -/

theorem finishedRecord_id (e : IterEnv) : (finishedRecord e).id = e.id := by
  unfold finishedRecord
  cases registerAccount e.fetch <;> rfl

theorem finishedRecord_status (e : IterEnv) :
    (finishedRecord e).status = Status.SUCCESS ∨ (finishedRecord e).status = Status.ERROR := by
  unfold finishedRecord
  cases registerAccount e.fetch
  · exact Or.inr rfl
  · exact Or.inl rfl

theorem markResult_length (nid : String) (res : Except String Unit) (accs : List Account) :
    (markResult nid res accs).length = accs.length := by
  unfold markResult
  exact List.length_map accs _

theorem markResult_id_of_fresh (nid : String) (res : Except String Unit)
    (accs : List Account) (h : ∀ a ∈ accs, a.id ≠ nid) :
    markResult nid res accs = accs := by
  unfold markResult
  induction accs with
  | nil => rfl
  | cons a t ih =>
    have ha : a.id ≠ nid := h a (List.mem_cons_self a t)
    simp only [List.map_cons, ha, if_false]
    have ht := ih (fun b hb => h b (List.mem_cons_of_mem a hb))
    rw [show (List.map _ t = t) from ht]

theorem markResult_cons_fresh (e : IterEnv) (accs : List Account)
    (h : ∀ a ∈ accs, a.id ≠ e.id) :
    markResult (mkAccount e).id (registerAccount e.fetch) (mkAccount e :: accs) =
      finishedRecord e :: accs := by
  have hid : (mkAccount e).id = e.id := rfl
  unfold markResult
  simp only [List.map_cons, if_pos rfl]
  have hhead :
      (match registerAccount e.fetch with
        | .ok _ => { mkAccount e with status := .SUCCESS }
        | .error m => { mkAccount e with status := .ERROR, errorMessage := some m }) =
        finishedRecord e := by
    unfold finishedRecord
    rfl
  rw [hhead]
  congr 1
  have := markResult_id_of_fresh (mkAccount e).id (registerAccount e.fetch) accs
    (by simpa [hid] using h)
  simpa [markResult] using this

theorem genLoop_trace (env : Nat → IterEnv) :
    ∀ (rem i : Nat) (accs : List Account),
      (genLoop env rem i accs).2 = List.range' i (execCount env rem i) := by
  intro rem
  induction rem with
  | zero => intro i accs; simp [genLoop, execCount]
  | succ rem ih =>
    intro i accs
    by_cases hs : (env i).stop = true
    · simp [genLoop, execCount, hs]
    · simp only [genLoop, execCount, hs, if_false, Bool.false_eq_true]
      rw [List.range'_succ]
      simp [ih]

theorem execCount_le (env : Nat → IterEnv) :
    ∀ (rem i : Nat), execCount env rem i ≤ rem := by
  intro rem
  induction rem with
  | zero => intro i; simp [execCount]
  | succ rem ih =>
    intro i
    by_cases hs : (env i).stop = true
    · simp [execCount, hs]
    · simp only [execCount, hs, if_false, Bool.false_eq_true]
      exact Nat.succ_le_succ (ih (i + 1))

theorem execCount_pos (env : Nat → IterEnv) (rem i : Nat)
    (hrem : 0 < rem) (hs : (env i).stop = false) : 0 < execCount env rem i := by
  cases rem with
  | zero => omega
  | succ rem => simp [execCount, hs]

theorem execCount_extend (env : Nat → IterEnv) :
    ∀ (rem i m : Nat), m < execCount env rem i → m + 1 < rem →
      (env (i + m + 1)).stop = false → m + 1 < execCount env rem i := by
  intro rem
  induction rem with
  | zero => intro i m hm; simp [execCount] at hm
  | succ rem ih =>
    intro i m hm hrem hstop
    by_cases hs : (env i).stop = true
    · simp [execCount, hs] at hm
    · simp only [execCount, hs, if_false, Bool.false_eq_true] at hm ⊢
      cases m with
      | zero =>
        have h1 : (env (i + 1)).stop = false := by simpa using hstop
        have := execCount_pos env rem (i + 1) (by omega) h1
        omega
      | succ m =>
        have h1 : (env ((i + 1) + m + 1)).stop = false := by
          have : (i + 1) + m + 1 = i + (m + 1) + 1 := by omega
          rw [this]
          exact hstop
        have := ih (i + 1) m (by omega) (by omega) h1
        omega

theorem genLoop_length (env : Nat → IterEnv) :
    ∀ (rem i : Nat) (accs : List Account),
      (genLoop env rem i accs).1.length = accs.length + (genLoop env rem i accs).2.length := by
  intro rem
  induction rem with
  | zero => intro i accs; simp [genLoop]
  | succ rem ih =>
    intro i accs
    by_cases hs : (env i).stop = true
    · simp [genLoop, hs]
    · simp only [genLoop, hs, if_false, Bool.false_eq_true]
      have := ih (i + 1)
        (markResult (mkAccount (env i)).id (registerAccount (env i).fetch)
          (mkAccount (env i) :: accs))
      simp only [List.length_cons] at this ⊢
      rw [this, markResult_length]
      simp only [List.length_cons]
      omega

theorem genLoop_accounts (env : Nat → IterEnv) :
    ∀ (rem i : Nat) (accs : List Account),
      (∀ j a, i ≤ j → a ∈ accs → a.id ≠ (env j).id) →
      (∀ j k, i ≤ j → i ≤ k → j ≠ k → (env j).id ≠ (env k).id) →
      (genLoop env rem i accs).1 =
        ((List.range' i (execCount env rem i)).reverse.map
            (fun j => finishedRecord (env j))) ++ accs := by
  intro rem
  induction rem with
  | zero => intro i accs _ _; simp [genLoop, execCount]
  | succ rem ih =>
    intro i accs hacc hids
    by_cases hs : (env i).stop = true
    · simp [genLoop, execCount, hs]
    · simp only [genLoop, execCount, hs, if_false, Bool.false_eq_true]
      have hfresh : ∀ a ∈ accs, a.id ≠ (env i).id :=
        fun a ha => hacc i a (Nat.le_refl i) ha
      rw [markResult_cons_fresh (env i) accs hfresh]
      have hacc2 : ∀ j a, i + 1 ≤ j → a ∈ finishedRecord (env i) :: accs →
          a.id ≠ (env j).id := by
        intro j a hj ha
        rcases List.mem_cons.mp ha with h | h
        · rw [h, finishedRecord_id]
          exact hids i j (Nat.le_refl i) (by omega) (by omega)
        · exact hacc j a (by omega) h
      have hids2 : ∀ j k, i + 1 ≤ j → i + 1 ≤ k → j ≠ k → (env j).id ≠ (env k).id :=
        fun j k hj hk hne => hids j k (by omega) (by omega) hne
      rw [ih (i + 1) (finishedRecord (env i) :: accs) hacc2 hids2]
      rw [List.range'_succ]
      simp [List.map_append]

theorem trace_lt_of_stop (env : Nat → IterEnv) (k : Nat)
    (hmono : ∀ i j, i ≤ j → (env i).stop = true → (env j).stop = true)
    (hk : (env k).stop = true) :
    ∀ (rem i j : Nat), j ∈ List.range' i (execCount env rem i) → j < k := by
  intro rem
  induction rem with
  | zero => intro i j hj; simp [execCount] at hj
  | succ rem ih =>
    intro i j hj
    by_cases hs : (env i).stop = true
    · simp [execCount, hs] at hj
    · simp only [execCount, hs, if_false, Bool.false_eq_true] at hj
      rw [List.range'_succ] at hj
      rcases List.mem_cons.mp hj with h | h
      · subst h
        by_contra hc
        exact hs (hmono k j (by omega) hk)
      · exact ih (i + 1) j h

/-! ## Claims about the bot loop and registerAccount -/

/-- C3: registerAccount errors exactly when the fetch rejects, the response
is not ok, or the body fails to parse; an ok, parsed response returns
normally even when its code is neither 200 nor 0 (the throw on that branch
is commented out in the source), so such a response leaves the record
marked SUCCESS. -/
theorem c3_registerAccount_error_iff (o : FetchOutcome) :
    ((∃ m, registerAccount o = Except.error m) ↔
      ((∃ m, o = FetchOutcome.netError m) ∨
        (∃ st body, o = FetchOutcome.response false st body) ∨
        (∃ st m, o = FetchOutcome.response true st (BodyParse.parseFailed m)))) ∧
    (∀ st code msg2, o = FetchOutcome.response true st (BodyParse.parsed code msg2) →
      code ≠ some 200 → code ≠ some 0 →
        registerAccount o = Except.ok () ∧
        ∀ e : IterEnv, e.fetch = o → (finishedRecord e).status = Status.SUCCESS) := by
  constructor
  · cases o with
    | netError m => simp [registerAccount]
    | response ok st body =>
      cases ok with
      | false => simp [registerAccount]
      | true =>
        cases body with
        | parseFailed m => simp [registerAccount]
        | parsed code msg2 => simp [registerAccount]
  · intro st code msg2 ho _ _
    subst ho
    refine ⟨rfl, ?_⟩
    intro e he
    unfold finishedRecord
    rw [he]
    rfl

/-- Witness for C3 at a concrete ok response with code 500. -/
theorem c3_witness :
    registerAccount (FetchOutcome.response true 200 (BodyParse.parsed (some 500) none)) =
      Except.ok () ∧
    (finishedRecord
        { stop := false,
          fetch := FetchOutcome.response true 200 (BodyParse.parsed (some 500) none),
          id := "id0", email := "a@b.c", password := "pw", createdAt := "t" }).status =
      Status.SUCCESS := by
  have h := (c3_registerAccount_error_iff
      (FetchOutcome.response true 200 (BodyParse.parsed (some 500) none))).2
      200 (some 500) none rfl (by decide) (by decide)
  exact ⟨h.1, h.2 _ rfl⟩

/-- C4: a record whose registration request fails ends with status ERROR
and the failure message in errorMessage; its iteration issued exactly one
request (no retry); and the loop proceeds to the next iteration whenever
the target is not yet reached and the stop flag is not set. -/
theorem c4_failure_recorded (env : Nat → IterEnv) (target : Nat) (accs : List Account)
    (hacc : ∀ j a, a ∈ accs → a.id ≠ (env j).id)
    (hids : ∀ j k, j ≠ k → (env j).id ≠ (env k).id)
    (j : Nat) (msg : String)
    (hj : j ∈ (startGeneration env target accs).2)
    (hfail : registerAccount (env j).fetch = Except.error msg) :
    (∃ a ∈ (startGeneration env target accs).1,
        a.id = (env j).id ∧ a.status = Status.ERROR ∧ a.errorMessage = some msg) ∧
    (startGeneration env target accs).2.count j = 1 ∧
    (j + 1 < target → (env (j + 1)).stop = false →
      (j + 1) ∈ (startGeneration env target accs).2) := by
  have htr : (startGeneration env target accs).2 =
      List.range' 0 (execCount env target 0) := genLoop_trace env target 0 accs
  have hac : (startGeneration env target accs).1 =
      ((List.range' 0 (execCount env target 0)).reverse.map
          (fun j => finishedRecord (env j))) ++ accs :=
    genLoop_accounts env target 0 accs (fun j a _ ha => hacc j a ha)
      (fun j k _ _ hne => hids j k hne)
  refine ⟨?_, ?_, ?_⟩
  · refine ⟨finishedRecord (env j), ?_, ?_⟩
    · rw [hac]
      apply List.mem_append_left
      apply List.mem_map_of_mem
      rw [List.mem_reverse]
      rw [htr] at hj
      exact hj
    · refine ⟨finishedRecord_id (env j), ?_, ?_⟩ <;>
        · unfold finishedRecord
          rw [hfail]
  · rw [htr]
    rw [htr] at hj
    exact List.count_eq_one_of_mem (List.nodup_range' _ _) hj
  · intro hlt hstop
    rw [htr] at hj ⊢
    have hjlt : j < execCount env target 0 := by
      have := List.mem_range'_1.mp hj
      omega
    have := execCount_extend env target 0 j hjlt hlt (by simpa using hstop)
    exact List.mem_range'_1.mpr (by omega)

/-- Witness for C4 at a concrete failing run. -/
theorem c4_witness :
    (0 : Nat) ∈ (startGeneration
        (fun i => { stop := false, fetch := FetchOutcome.netError "down",
                    id := String.mk (List.replicate i 'a'), email := "a@b.c",
                    password := "pw", createdAt := "t" }) 1 []).2 ∧
    (∃ a ∈ (startGeneration
        (fun i => { stop := false, fetch := FetchOutcome.netError "down",
                    id := String.mk (List.replicate i 'a'), email := "a@b.c",
                    password := "pw", createdAt := "t" }) 1 []).1,
        a.id = "" ∧ a.status = Status.ERROR ∧ a.errorMessage = some "down") := by
  have h := c4_failure_recorded
    (fun i => { stop := false, fetch := FetchOutcome.netError "down",
                id := String.mk (List.replicate i 'a'), email := "a@b.c",
                password := "pw", createdAt := "t" })
    1 [] (by intro j a ha; simp at ha)
    (by
      intro j k hne hs
      apply hne
      have := congrArg (fun s => s.data.length) hs
      simpa using this)
    0 "down" (by decide) rfl
  exact ⟨by decide, h.1⟩

/-- C5: a run with target n adds exactly one record per executed iteration
and so at most n records; once the stop flag is set (it is monotone: a
cooperative stop is never unset during a run) no later iteration executes;
and the stop flag is observed only between iterations: every executed
iteration completes its request, ending SUCCESS or ERROR. -/
theorem c5_bounded_and_stop (env : Nat → IterEnv) (target : Nat) (accs : List Account)
    (hmono : ∀ i j, i ≤ j → (env i).stop = true → (env j).stop = true) :
    (startGeneration env target accs).1.length ≤ accs.length + target ∧
    (startGeneration env target accs).1.length =
      accs.length + (startGeneration env target accs).2.length ∧
    (∀ k, (env k).stop = true → ∀ j ∈ (startGeneration env target accs).2, j < k) ∧
    (∀ j ∈ (startGeneration env target accs).2,
      (finishedRecord (env j)).status = Status.SUCCESS ∨
      (finishedRecord (env j)).status = Status.ERROR) := by
  have hlen : (startGeneration env target accs).1.length =
      accs.length + (startGeneration env target accs).2.length :=
    genLoop_length env target 0 accs
  have htr : (startGeneration env target accs).2 =
      List.range' 0 (execCount env target 0) := genLoop_trace env target 0 accs
  refine ⟨?_, hlen, ?_, ?_⟩
  · rw [hlen, htr]
    have h1 : (List.range' 0 (execCount env target 0)).length = execCount env target 0 := by
      simp
    rw [h1]
    have := execCount_le env target 0
    omega
  · intro k hk j hj
    rw [htr] at hj
    exact trace_lt_of_stop env k hmono hk target 0 j hj
  · intro j _
    exact finishedRecord_status (env j)

/-- Witness for C5 at a concrete run stopped at iteration 1. -/
theorem c5_witness :
    (startGeneration
        (fun i => { stop := decide (1 ≤ i), fetch := FetchOutcome.netError "down",
                    id := toString i, email := "a@b.c", password := "pw",
                    createdAt := "t" }) 3 []).1.length ≤ 0 + 3 := by
  have h := c5_bounded_and_stop
    (fun i => { stop := decide (1 ≤ i), fetch := FetchOutcome.netError "down",
                id := toString i, email := "a@b.c", password := "pw", createdAt := "t" })
    3 []
    (by
      intro i j hij hi
      simp only [decide_eq_true_eq] at hi ⊢
      omega)
  simpa using h.1

/-! ## Claims about the MD5 digest -/

/-- C6 counterexample: the claim asserts
`digest_md5 "password" = "5f4dc92d0c0b6e04f0e0e08d5f5f4b75"`, but the
standard MD5 of "password" is `5f4dcc3b5aa765d61d8327deb882cf99`. -/
theorem c6_counterexample :
    digest_md5 "password" ≠ "5f4dc92d0c0b6e04f0e0e08d5f5f4b75" := by
  decide

/-- C6 (amended): digest_md5 matches the standard MD5 reference vectors:
empty string, "abc", and "password" (whose true digest is
5f4dcc3b5aa765d61d8327deb882cf99, not the value quoted in the spec). -/
theorem c6_md5_vectors :
    digest_md5 "" = "d41d8cd98f00b204e9800998ecf8427e" ∧
    digest_md5 "abc" = "900150983cd24fb0d6963f7d28e17f72" ∧
    digest_md5 "password" = "5f4dcc3b5aa765d61d8327deb882cf99" := by
  refine ⟨by decide, by decide, by decide⟩

theorem bytesToHex_length : ∀ bs : List Nat, (bytesToHex bs).length = 2 * bs.length := by
  intro bs
  induction bs with
  | nil => rfl
  | cons b t ih =>
    simp only [bytesToHex, byteToHex, List.length_append, List.length_cons, ih,
      List.length_nil]
    omega

theorem hexChar_mem : ∀ n : Nat, n < 16 → hexChar n ∈ hexDigitChars := by
  decide

theorem bytesToHex_mem : ∀ bs : List Nat, (∀ b ∈ bs, b < 256) →
    ∀ c ∈ bytesToHex bs, c ∈ hexDigitChars := by
  intro bs
  induction bs with
  | nil => intro _ c hc; simp [bytesToHex] at hc
  | cons b t ih =>
    intro hb c hc
    simp only [bytesToHex, byteToHex, List.mem_append, List.mem_cons,
      List.not_mem_nil, or_false] at hc
    have hblt : b < 256 := hb b (List.mem_cons_self b t)
    rcases hc with (h | h) | h
    · rw [h]; exact hexChar_mem _ (by omega)
    · rw [h]; exact hexChar_mem _ (by omega)
    · exact ih (fun x hx => hb x (List.mem_cons_of_mem b hx)) c h

theorem le4_lt (n : Nat) : ∀ x ∈ le4 n, x < 256 := by
  intro x hx
  simp only [le4, List.mem_cons, List.not_mem_nil, or_false] at hx
  rcases hx with h | h | h | h <;> (rw [h]; omega)

theorem md5Bytes_shape (m : List Nat) :
    (md5Bytes m).length = 16 ∧ ∀ b ∈ md5Bytes m, b < 256 := by
  unfold md5Bytes
  constructor
  · simp [le4]
  · intro b hb
    simp only [List.mem_append] at hb
    rcases hb with ((h | h) | h) | h <;> exact le4_lt _ _ h

/-- C7: for every input string, digest_md5 produces exactly 32 characters,
each a lowercase hexadecimal digit. -/
theorem c7_digest_shape (s : String) :
    (digest_md5 s).length = 32 ∧ ∀ c ∈ (digest_md5 s).data, c ∈ hexDigitChars := by
  have hlen : (digest_md5 s).length = (bytesToHex (md5Bytes (utf8Encode s))).length := rfl
  have hdata : (digest_md5 s).data = bytesToHex (md5Bytes (utf8Encode s)) := rfl
  obtain ⟨h16, hlt⟩ := md5Bytes_shape (utf8Encode s)
  constructor
  · rw [hlen, bytesToHex_length, h16]
  · rw [hdata]
    exact bytesToHex_mem _ hlt

/-! ## Frame effect of the status update (C9) -/

theorem markResult_getD (nid : String) (res : Except String Unit)
    (accs : List Account) (da : Account) (k : Nat) (h : k < accs.length) :
    (markResult nid res accs).getD k da =
      (if (accs.getD k da).id = nid then
        match res with
        | .ok _ => { accs.getD k da with status := .SUCCESS }
        | .error m => { accs.getD k da with status := .ERROR, errorMessage := some m }
      else accs.getD k da) := by
  unfold markResult
  rw [List.getD_eq_getElem?_getD, List.getElem?_map, List.getElem?_eq_getElem h,
    List.getD_eq_getElem?_getD, List.getElem?_eq_getElem h]
  rfl

/-- C9: resolving a registration updates only the matching record, and on
that record only the status (and, on failure, errorMessage) fields; all
other fields and all other records are unchanged, the fresh record starts
PENDING, and the final status is exactly SUCCESS or ERROR. -/
theorem c9_frame_effect (nid : String) (res : Except String Unit)
    (accs : List Account) (e : IterEnv) (da : Account) :
    (mkAccount e).status = Status.PENDING ∧
    (markResult nid res accs).length = accs.length ∧
    (∀ k, k < accs.length →
      ((accs.getD k da).id ≠ nid →
        (markResult nid res accs).getD k da = accs.getD k da) ∧
      ((accs.getD k da).id = nid →
        ((markResult nid res accs).getD k da).id = (accs.getD k da).id ∧
        ((markResult nid res accs).getD k da).email = (accs.getD k da).email ∧
        ((markResult nid res accs).getD k da).passwordPlain =
          (accs.getD k da).passwordPlain ∧
        ((markResult nid res accs).getD k da).passwordMd5 =
          (accs.getD k da).passwordMd5 ∧
        ((markResult nid res accs).getD k da).createdAt = (accs.getD k da).createdAt ∧
        (((markResult nid res accs).getD k da).status = Status.SUCCESS ∨
          ((markResult nid res accs).getD k da).status = Status.ERROR) ∧
        (∀ m, res = Except.error m →
          ((markResult nid res accs).getD k da).status = Status.ERROR ∧
          ((markResult nid res accs).getD k da).errorMessage = some m) ∧
        (res = Except.ok () →
          ((markResult nid res accs).getD k da).status = Status.SUCCESS ∧
          ((markResult nid res accs).getD k da).errorMessage =
            (accs.getD k da).errorMessage))) := by
  refine ⟨rfl, markResult_length nid res accs, ?_⟩
  intro k hk
  rw [markResult_getD nid res accs da k hk]
  constructor
  · intro hne
    rw [if_neg hne]
  · intro heq
    rw [if_pos heq]
    cases res with
    | ok u =>
      cases u
      refine ⟨rfl, rfl, rfl, rfl, rfl, Or.inl rfl, ?_, fun _ => ⟨rfl, rfl⟩⟩
      intro m hm
      exact absurd hm (by simp)
    | error m0 =>
      refine ⟨rfl, rfl, rfl, rfl, rfl, Or.inr rfl, ?_, ?_⟩
      · intro m hm
        have : m0 = m := by
          injection hm
        subst this
        exact ⟨rfl, rfl⟩
      · intro hm
        exact absurd hm (by simp)

/-- Witness for C9 at a concrete two-record list with a failing result. -/
theorem c9_witness :
    (0 < ([{ id := "0", email := "e0", passwordPlain := "p0", passwordMd5 := "h0",
             status := Status.PENDING, createdAt := "t0", errorMessage := none },
           { id := "1", email := "e1", passwordPlain := "p1", passwordMd5 := "h1",
             status := Status.PENDING, createdAt := "t1", errorMessage := none }] :
        List Account).length) ∧
    ((markResult "0" (Except.error "boom")
        [{ id := "0", email := "e0", passwordPlain := "p0", passwordMd5 := "h0",
           status := Status.PENDING, createdAt := "t0", errorMessage := none },
         { id := "1", email := "e1", passwordPlain := "p1", passwordMd5 := "h1",
           status := Status.PENDING, createdAt := "t1", errorMessage := none }]).getD 1
        { id := "", email := "", passwordPlain := "", passwordMd5 := "",
          status := Status.PENDING, createdAt := "", errorMessage := none } =
      { id := "1", email := "e1", passwordPlain := "p1", passwordMd5 := "h1",
        status := Status.PENDING, createdAt := "t1", errorMessage := none }) ∧
    ((markResult "0" (Except.error "boom")
        [{ id := "0", email := "e0", passwordPlain := "p0", passwordMd5 := "h0",
           status := Status.PENDING, createdAt := "t0", errorMessage := none },
         { id := "1", email := "e1", passwordPlain := "p1", passwordMd5 := "h1",
           status := Status.PENDING, createdAt := "t1", errorMessage := none }]).getD 0
        { id := "", email := "", passwordPlain := "", passwordMd5 := "",
          status := Status.PENDING, createdAt := "", errorMessage := none }).status =
      Status.ERROR := by
  have h := c9_frame_effect "0" (Except.error "boom")
    [{ id := "0", email := "e0", passwordPlain := "p0", passwordMd5 := "h0",
       status := Status.PENDING, createdAt := "t0", errorMessage := none },
     { id := "1", email := "e1", passwordPlain := "p1", passwordMd5 := "h1",
       status := Status.PENDING, createdAt := "t1", errorMessage := none }]
    { stop := false, fetch := FetchOutcome.netError "boom", id := "0", email := "e0",
      password := "p0", createdAt := "t0" }
    { id := "", email := "", passwordPlain := "", passwordMd5 := "",
      status := Status.PENDING, createdAt := "", errorMessage := none }
  refine ⟨by decide, ?_, ?_⟩
  · exact (h.2.2 1 (by decide)).1 (by decide)
  · exact (((h.2.2 0 (by decide)).2 (by decide)).2.2.2.2.2.2.1 "boom" rfl).1

/-! ## JSON round-trip lemmas (C10) -/

theorem hexVal_hexChar : ∀ v : Nat, v < 16 → hexVal (hexChar v) = some v := by
  decide

theorem decodeHex4_eval (hi lo : Nat) (h1 : hi < 16) (h2 : lo < 16) :
    decodeHex4 '0' '0' (hexChar hi) (hexChar lo) = some (hi * 16 + lo) := by
  have h0 : hexVal '0' = some 0 := rfl
  unfold decodeHex4
  rw [h0, hexVal_hexChar hi h1, hexVal_hexChar lo h2]
  simp only [Option.some_bind, Option.map_some']
  exact congrArg some (by omega)

theorem st_quote (f : Nat) (l : List Char) :
    parseStrAux (f + 1) ('"' :: l) = some ([], l) := rfl

theorem st_esc_quote (f : Nat) (l : List Char) :
    parseStrAux (f + 1) ('\\' :: '"' :: l) =
      (parseStrAux f l).map (fun p => ('"' :: p.1, p.2)) := rfl

theorem st_esc_back (f : Nat) (l : List Char) :
    parseStrAux (f + 1) ('\\' :: '\\' :: l) =
      (parseStrAux f l).map (fun p => ('\\' :: p.1, p.2)) := rfl

theorem st_esc_u (f : Nat) (d1 d2 d3 d4 : Char) (l : List Char) :
    parseStrAux (f + 1) ('\\' :: 'u' :: d1 :: d2 :: d3 :: d4 :: l) =
      (decodeHex4 d1 d2 d3 d4).bind (fun n =>
        (parseStrAux f l).map (fun p => (Char.ofNat n :: p.1, p.2))) := rfl

theorem st_plain (f : Nat) (c : Char) (l : List Char)
    (hq : ¬ c = '"') (hb : ¬ c = '\\') :
    parseStrAux (f + 1) (c :: l) =
      (parseStrAux f l).map (fun p => (c :: p.1, p.2)) := by
  conv_lhs => rw [parseStrAux.eq_def]
  simp only []
  rw [if_neg hq, if_neg hb]

theorem parseStr_roundtrip :
    ∀ (s : List Char) (fuel : Nat) (rest : List Char),
      (escapeList s ++ '"' :: rest).length ≤ fuel →
      parseStrAux fuel (escapeList s ++ '"' :: rest) = some (s, rest) := by
  intro s
  induction s with
  | nil =>
    intro fuel rest hf
    simp only [escapeList, List.nil_append] at hf ⊢
    cases fuel with
    | zero => simp at hf
    | succ f => exact st_quote f rest
  | cons c t ih =>
    intro fuel rest hf
    rw [show escapeList (c :: t) = escapeChar c ++ escapeList t from rfl] at hf ⊢
    by_cases hq : c = '"'
    · subst hq
      rw [show escapeChar '"' = ['\\', '"'] from rfl] at hf ⊢
      cases fuel with
      | zero => simp [List.length_append] at hf
      | succ f =>
        have hlen : (escapeList t ++ '"' :: rest).length ≤ f := by
          simp only [List.length_append, List.length_cons] at hf ⊢
          omega
        simp only [List.cons_append, List.nil_append]
        rw [st_esc_quote f _, ih f rest hlen]
        rfl
    · by_cases hb : c = '\\'
      · subst hb
        rw [show escapeChar '\\' = ['\\', '\\'] from rfl] at hf ⊢
        cases fuel with
        | zero => simp [List.length_append] at hf
        | succ f =>
          have hlen : (escapeList t ++ '"' :: rest).length ≤ f := by
            simp only [List.length_append, List.length_cons] at hf ⊢
            omega
          simp only [List.cons_append, List.nil_append]
          rw [st_esc_back f _, ih f rest hlen]
          rfl
      · by_cases hctl : c.toNat < 32
        · rw [show escapeChar c =
              ['\\', 'u', '0', '0', hexChar (c.toNat / 16), hexChar (c.toNat % 16)] from by
                simp [escapeChar, hq, hb, hctl]] at hf ⊢
          cases fuel with
          | zero => simp [List.length_append] at hf
          | succ f =>
            have hlen : (escapeList t ++ '"' :: rest).length ≤ f := by
              simp only [List.length_append, List.length_cons] at hf ⊢
              omega
            simp only [List.cons_append, List.nil_append]
            rw [st_esc_u f _ _ _ _ _,
              decodeHex4_eval (c.toNat / 16) (c.toNat % 16) (by omega) (by omega)]
            simp only [Option.some_bind]
            rw [ih f rest hlen]
            have harith : c.toNat / 16 * 16 + c.toNat % 16 = c.toNat := by omega
            rw [harith, Char.ofNat_toNat]
            rfl
        · rw [show escapeChar c = [c] from by simp [escapeChar, hq, hb, hctl]] at hf ⊢
          cases fuel with
          | zero => simp [List.length_append] at hf
          | succ f =>
            have hlen : (escapeList t ++ '"' :: rest).length ≤ f := by
              simp only [List.length_append, List.length_cons] at hf ⊢
              omega
            simp only [List.cons_append, List.nil_append]
            rw [st_plain f c _ hq hb, ih f rest hlen]
            rfl

theorem pquoted_step (fuel : Nat) (l : List Char) :
    parseQuoted fuel ('"' :: l) = parseStrAux fuel l := rfl

theorem parseQuoted_roundtrip (s : String) (fuel : Nat) (rest : List Char)
    (hf : (quoteString s ++ rest).length ≤ fuel) :
    parseQuoted fuel (quoteString s ++ rest) = some (s.data, rest) := by
  unfold quoteString at hf ⊢
  have hshape : ('"' :: (escapeList s.data ++ ['"'])) ++ rest
      = '"' :: (escapeList s.data ++ '"' :: rest) := by simp
  rw [hshape] at hf ⊢
  rw [pquoted_step]
  apply parseStr_roundtrip
  simp only [List.length_cons] at hf
  omega

theorem parsePair_roundtrip (p : String × String) (fuel : Nat) (rest : List Char)
    (hf : (pairChars p ++ rest).length ≤ fuel) :
    parsePair fuel (pairChars p ++ rest) = some (p, rest) := by
  obtain ⟨k, v⟩ := p
  unfold pairChars at hf ⊢
  have hshape : (quoteString k ++ ':' :: quoteString v) ++ rest
      = quoteString k ++ (':' :: (quoteString v ++ rest)) := by simp
  rw [hshape] at hf ⊢
  unfold parsePair
  rw [parseQuoted_roundtrip k fuel _ hf]
  simp only [Option.some_bind, if_true]
  rw [parseQuoted_roundtrip v fuel rest (by
    simp only [List.length_append, List.length_cons] at hf ⊢
    omega)]
  rfl

theorem pairChars_head (p : String × String) (x : List Char) :
    pairChars p ++ x
      = '"' :: ((escapeList p.1.data ++ ['"']) ++ ':' :: quoteString p.2 ++ x) := by
  simp [pairChars, quoteString]

theorem pfields_close (f : Nat) (l : List Char) :
    parseFieldsAux (f + 1) ('}' :: l) = some ([], l) := rfl

theorem pfields_step_comma (f : Nat) (c : Char) (l rest3 : List Char)
    (p : String × String) (hc : ¬ c = '}')
    (hp : parsePair (f + 1) (c :: l) = some (p, ',' :: rest3)) :
    parseFieldsAux (f + 1) (c :: l) =
      (parseFieldsAux f rest3).map (fun qr => (p :: qr.1, qr.2)) := by
  conv_lhs => rw [parseFieldsAux.eq_def]
  simp only []
  rw [if_neg hc, hp]
  rfl

theorem pfields_step_close (f : Nat) (c : Char) (l rest3 : List Char)
    (p : String × String) (hc : ¬ c = '}')
    (hp : parsePair (f + 1) (c :: l) = some (p, '}' :: rest3)) :
    parseFieldsAux (f + 1) (c :: l) = some ([p], rest3) := by
  conv_lhs => rw [parseFieldsAux.eq_def]
  simp only []
  rw [if_neg hc, hp]
  rfl

theorem parseFields_roundtrip :
    ∀ (fs : List (String × String)) (fuel : Nat) (rest : List Char),
      (fieldsChars fs ++ '}' :: rest).length ≤ fuel →
      parseFieldsAux fuel (fieldsChars fs ++ '}' :: rest) = some (fs, rest) := by
  intro fs
  induction fs with
  | nil =>
    intro fuel rest hf
    rw [show fieldsChars [] = [] from rfl] at hf ⊢
    simp only [List.nil_append] at hf ⊢
    cases fuel with
    | zero => simp at hf
    | succ f => exact pfields_close f rest
  | cons p t ih =>
    intro fuel rest hf
    cases t with
    | nil =>
      rw [show fieldsChars [p] = pairChars p from rfl] at hf ⊢
      cases fuel with
      | zero =>
        rw [pairChars_head] at hf
        simp at hf
      | succ f =>
        rw [pairChars_head] at hf ⊢
        apply pfields_step_close f _ _ rest p (by decide)
        rw [← pairChars_head]
        exact parsePair_roundtrip p (f + 1) ('}' :: rest) (by rw [pairChars_head]; exact hf)
    | cons q ts =>
      rw [show fieldsChars (p :: q :: ts) =
          pairChars p ++ ',' :: fieldsChars (q :: ts) from rfl] at hf ⊢
      have hshape : (pairChars p ++ ',' :: fieldsChars (q :: ts)) ++ '}' :: rest
          = pairChars p ++ (',' :: (fieldsChars (q :: ts) ++ '}' :: rest)) := by simp
      rw [hshape] at hf ⊢
      cases fuel with
      | zero =>
        rw [pairChars_head] at hf
        simp at hf
      | succ f =>
        have hp1 : 1 ≤ (pairChars p).length := by
          rw [show pairChars p = pairChars p ++ [] from by simp, pairChars_head]
          simp
        rw [pairChars_head] at hf ⊢
        rw [pfields_step_comma f _ _ (fieldsChars (q :: ts) ++ '}' :: rest) p (by decide)
          (by
            rw [← pairChars_head]
            exact parsePair_roundtrip p (f + 1) _ (by rw [pairChars_head]; exact hf))]
        rw [ih f rest (by
          rw [← pairChars_head] at hf
          simp only [List.length_append, List.length_cons] at hf ⊢
          omega)]
        rfl

theorem objChars_head (o : List (String × String)) (x : List Char) :
    objChars o ++ x = '{' :: (fieldsChars o ++ '}' :: x) := by
  simp [objChars]

theorem pobj_step (fuel : Nat) (l : List Char) :
    parseObj fuel ('{' :: l) = parseFieldsAux fuel l := rfl

theorem pelems_close (f : Nat) (l : List Char) :
    parseElemsAux (f + 1) (']' :: l) = some ([], l) := rfl

theorem pelems_step_comma (f : Nat) (c : Char) (l rest3 : List Char)
    (o : List (String × String)) (hc : ¬ c = ']')
    (hp : parseObj (f + 1) (c :: l) = some (o, ',' :: rest3)) :
    parseElemsAux (f + 1) (c :: l) =
      (parseElemsAux f rest3).map (fun qr => (o :: qr.1, qr.2)) := by
  conv_lhs => rw [parseElemsAux.eq_def]
  simp only []
  rw [if_neg hc, hp]
  rfl

theorem pelems_step_close (f : Nat) (c : Char) (l rest3 : List Char)
    (o : List (String × String)) (hc : ¬ c = ']')
    (hp : parseObj (f + 1) (c :: l) = some (o, ']' :: rest3)) :
    parseElemsAux (f + 1) (c :: l) = some ([o], rest3) := by
  conv_lhs => rw [parseElemsAux.eq_def]
  simp only []
  rw [if_neg hc, hp]
  rfl

theorem parseElems_roundtrip :
    ∀ (os : List (List (String × String))) (fuel : Nat) (rest : List Char),
      (joinComma (os.map objChars) ++ ']' :: rest).length ≤ fuel →
      parseElemsAux fuel (joinComma (os.map objChars) ++ ']' :: rest) = some (os, rest) := by
  intro os
  induction os with
  | nil =>
    intro fuel rest hf
    simp only [List.map_nil, joinComma, List.nil_append] at hf ⊢
    cases fuel with
    | zero => simp at hf
    | succ f => exact pelems_close f rest
  | cons o t ih =>
    intro fuel rest hf
    cases t with
    | nil =>
      simp only [List.map_cons, List.map_nil, joinComma] at hf ⊢
      cases fuel with
      | zero =>
        rw [objChars_head] at hf
        simp at hf
      | succ f =>
        rw [objChars_head] at hf ⊢
        apply pelems_step_close f _ _ rest o (by decide)
        rw [pobj_step]
        exact parseFields_roundtrip o (f + 1) (']' :: rest) (by
          simp only [List.length_cons] at hf
          omega)
    | cons q ts =>
      rw [show (o :: q :: ts).map objChars = objChars o :: (q :: ts).map objChars
        from rfl] at hf ⊢
      rw [show joinComma (objChars o :: (q :: ts).map objChars)
          = objChars o ++ ',' :: joinComma ((q :: ts).map objChars) from rfl] at hf ⊢
      have hshape : (objChars o ++ ',' :: joinComma ((q :: ts).map objChars)) ++ ']' :: rest
          = objChars o ++ (',' :: (joinComma ((q :: ts).map objChars) ++ ']' :: rest)) := by
        simp
      rw [hshape] at hf ⊢
      cases fuel with
      | zero =>
        rw [objChars_head] at hf
        simp at hf
      | succ f =>
        rw [objChars_head] at hf ⊢
        rw [pelems_step_comma f _ _ (joinComma ((q :: ts).map objChars) ++ ']' :: rest) o
          (by decide)
          (by
            rw [pobj_step]
            exact parseFields_roundtrip o (f + 1) _ (by
              simp only [List.length_cons] at hf
              omega))]
        rw [ih f rest (by
          simp only [List.length_cons, List.length_append] at hf ⊢
          omega)]
        rfl

theorem parseArr_roundtrip (os : List (List (String × String))) (fuel : Nat)
    (rest : List Char) (hf : (arrChars os ++ rest).length ≤ fuel) :
    parseArr fuel (arrChars os ++ rest) = some (os, rest) := by
  unfold arrChars at hf ⊢
  have hshape : ('[' :: (joinComma (os.map objChars) ++ [']'])) ++ rest
      = '[' :: (joinComma (os.map objChars) ++ ']' :: rest) := by simp
  rw [hshape] at hf ⊢
  rw [show ∀ fuel2 l, parseArr fuel2 ('[' :: l) = parseElemsAux fuel2 l from fun _ _ => rfl]
  apply parseElems_roundtrip
  simp only [List.length_cons] at hf
  omega

theorem accountOfPairs_accountPairs (a : Account) :
    accountOfPairs (accountPairs a) = some a := by
  obtain ⟨i, em, pp, pm, st, ca, err⟩ := a
  cases err <;> cases st <;>
    simp [accountPairs, accountOfPairs, getField, statusToString, statusOfString]

theorem decodeAccounts_map (l : List Account) :
    decodeAccounts (l.map accountPairs) = some l := by
  induction l with
  | nil => rfl
  | cons a t ih =>
    simp only [List.map_cons, decodeAccounts, accountOfPairs_accountPairs a, ih]

theorem parseAccounts_stringify (l : List Account) :
    parseAccounts (stringifyAccounts l) = some l := by
  unfold parseAccounts stringifyAccounts
  have hdata : (String.mk (arrChars (l.map accountPairs))).data
      = arrChars (l.map accountPairs) := rfl
  have hlen : (String.mk (arrChars (l.map accountPairs))).length
      = (arrChars (l.map accountPairs)).length := rfl
  rw [hdata, hlen]
  have happ : arrChars (l.map accountPairs)
      = arrChars (l.map accountPairs) ++ [] := by simp
  rw [happ, parseArr_roundtrip (l.map accountPairs) _ [] (by simp)]
  exact decodeAccounts_map l

/-- C10: persistence round-trips: saving any accounts list under the
localStorage key `z_autoreg_accounts` and loading it back (stringify then
parse) restores the same list. -/
theorem c10_persistence_roundtrip (store : String → Option String) (l : List Account) :
    loadAccounts (saveAccounts store l) = l := by
  unfold loadAccounts saveAccounts
  rw [if_pos rfl]
  simp only []
  rw [parseAccounts_stringify]

end Azaam
